import Mathlib

/-!
Verification of the VLCSub subtitle core: a shallow embedding in Lean 4 of
`src/srt_parser.py` (SRT parsing and binary-search interval lookup) and
`src/sync_engine.py` (the playback clock state machine), together with
theorems checking the specified behaviour.

Modelling conventions:
* Python `int` becomes `Int`; wall-clock instants are exact integers in
  milliseconds (float rounding of `time.time()` is below the granularity the
  spec talks about).
* Python text becomes `List Char`/`String`; only ASCII whitespace and digits
  are modelled, matching every input the program's format can produce.
* Python list indexing (including negative-index wraparound and the
  `IndexError` case) is modelled by `pyIndex` returning `Except`.
* Fallible parsing steps (`int(...)`, regex match failure) return `Option`.
-/

/-- `Subtitle` from `srt_parser.py`: one subtitle entry. -/
structure Subtitle where
  index : Int
  start_ms : Int
  end_ms : Int
  text : String
  deriving Repr, DecidableEq

/-- The effective index of Python list indexing: a negative index counts
from the end of the list. -/
def pyIdx {α : Type} (l : List α) (i : Int) : Int :=
  if i < 0 then (l.length : Int) + i else i

/-- Python list indexing `l[i]` on an `Int` index: negative indices count
from the end, anything else out of range raises `IndexError` (the `.error`
case). -/
def pyIndex {α : Type} (l : List α) (i : Int) : Except Unit α :=
  if h : 0 ≤ pyIdx l i ∧ pyIdx l i < (l.length : Int) then
    .ok (l.get ⟨(pyIdx l i).toNat, by omega⟩)
  else
    .error ()

/-- The `while left <= right` loop of `get_subtitle_at_time`
(`srt_parser.py` lines 163-174), with `left`/`right` as Python ints and
`mid = (left + right) // 2` as Python floor division (`Int.fdiv`).
An out-of-range list access propagates as `.error`. -/
def bsearchCore (subs : List Subtitle) (t : Int) (left right : Int) :
    Except Unit (Option Subtitle) :=
  if left ≤ right then
    let mid := (left + right).fdiv 2
    match pyIndex subs mid with
    | .error e => .error e
    | .ok sub =>
      if sub.start_ms ≤ t ∧ t ≤ sub.end_ms then .ok (some sub)
      else if t < sub.start_ms then bsearchCore subs t left (mid - 1)
      else bsearchCore subs t (mid + 1) right
  else
    .ok none
termination_by (right + 1 - left).toNat
decreasing_by
  all_goals
    have h2 : (left + right).fdiv 2 = (left + right) / 2 :=
      Int.fdiv_eq_ediv _ (by omega)
    simp only [h2] at *
    omega

/-- `get_subtitle_at_time(subtitles, current_ms)` from `srt_parser.py`:
binary search for the subtitle active at `current_ms`.  The `.error` branch
is unreachable (theorem `bsearchCore_ok` below proves the search never
indexes out of bounds from this entry point). -/
def get_subtitle_at_time (subtitles : List Subtitle) (current_ms : Int) :
    Option Subtitle :=
  if subtitles.isEmpty then none
  else
    match bsearchCore subtitles current_ms 0 ((subtitles.length : Int) - 1) with
    | .ok r => r
    | .error _ => none

/-!
## Sync engine (`sync_engine.py`)

`SubtitleSync` methods read the wall clock (`time.time()`); here every
method that reads the clock takes the current wall time `now` (integer
milliseconds) as an explicit argument.  `_start_time` (seconds, float) is
modelled in milliseconds: `time.time() - x / 1000.0` becomes `now - x`, and
`int((time.time() - start) * 1000)` becomes `now - start`.
-/

/-- The mutable state of `SubtitleSync.__init__`. -/
structure SubtitleSync where
  subtitles : List Subtitle
  start_time : Option Int
  offset_ms : Int
  is_running : Bool
  pause_elapsed : Int
  current_subtitle : Option Subtitle
  deriving Repr, DecidableEq

namespace SubtitleSync

/-- `SubtitleSync(subtitles)`. -/
def mk' (subtitles : List Subtitle) : SubtitleSync :=
  { subtitles := subtitles
    start_time := none
    offset_ms := 0
    is_running := false
    pause_elapsed := 0
    current_subtitle := none }

/-- `set_playback_time(time_ms)`: always store the time in
`_pause_elapsed`; re-anchor `_start_time` only when running. -/
def set_playback_time (s : SubtitleSync) (time_ms now : Int) : SubtitleSync :=
  { s with
    pause_elapsed := time_ms
    start_time := if s.is_running then some (now - time_ms) else s.start_time }

/-- `get_elapsed_ms()`. -/
def get_elapsed_ms (s : SubtitleSync) (now : Int) : Int :=
  match s.start_time with
  | none => 0
  | some st => if ¬ s.is_running then s.pause_elapsed else now - st

/-- `start()`: no-op when running; fresh start anchors at `now` and zeroes
`_pause_elapsed`; resume re-anchors so elapsed continues from
`_pause_elapsed`. -/
def start (s : SubtitleSync) (now : Int) : SubtitleSync :=
  if s.is_running then s
  else
    match s.start_time with
    | none =>
      { s with start_time := some now, pause_elapsed := 0, is_running := true }
    | some _ =>
      { s with start_time := some (now - s.pause_elapsed), is_running := true }

/-- `pause()`: no-op when not running; otherwise freeze the current elapsed
time. -/
def pause (s : SubtitleSync) (now : Int) : SubtitleSync :=
  if ¬ s.is_running then s
  else { s with pause_elapsed := s.get_elapsed_ms now, is_running := false }

/-- `toggle()`. -/
def toggle (s : SubtitleSync) (now : Int) : SubtitleSync :=
  if s.is_running then s.pause now else s.start now

/-- `reset()`. -/
def reset (s : SubtitleSync) : SubtitleSync :=
  { s with
    start_time := none
    pause_elapsed := 0
    is_running := false
    current_subtitle := none }

/-- `adjust_offset(delta_ms)`. -/
def adjust_offset (s : SubtitleSync) (delta_ms : Int) : SubtitleSync :=
  { s with offset_ms := s.offset_ms + delta_ms }

/-- `set_offset(offset_ms)`. -/
def set_offset (s : SubtitleSync) (offset_ms : Int) : SubtitleSync :=
  { s with offset_ms := offset_ms }

/-- `get_adjusted_time_ms()`. -/
def get_adjusted_time_ms (s : SubtitleSync) (now : Int) : Int :=
  s.get_elapsed_ms now + s.offset_ms

/-- `get_current_subtitle()`. -/
def get_current_subtitle (s : SubtitleSync) (now : Int) : Option Subtitle :=
  if s.subtitles.isEmpty then none
  else get_subtitle_at_time s.subtitles (s.get_adjusted_time_ms now)

/-- `seek_to(time_ms)`. -/
def seek_to (s : SubtitleSync) (time_ms now : Int) : SubtitleSync :=
  { s with
    pause_elapsed := time_ms
    start_time := if s.is_running then some (now - time_ms) else s.start_time }

end SubtitleSync

/-!
## SRT parser (`srt_parser.py`)

The textual pipeline of `parse_srt_file` is modelled character by
character: Python `str.strip()`, `str.split('\n')`, `'\n'.join`,
`int(...)`, the block separator regex `\n\s*\n` (as used by `re.split`),
the timestamp-line regex (as used by `re.match`, anchored at the start
only, greedy with backtracking over `\d{1,2}`), and the tag-removal regex
`<[^>]+>` (as used by `re.sub`, leftmost non-overlapping matches).
-/

/-- ASCII whitespace as recognised by Python's `str.strip` and `\s`. -/
def pyWs (c : Char) : Bool :=
  c = ' ' || c = '\t' || c = '\n' || c = '\r' || c = '\x0b' || c = '\x0c'

/-- Python `str.strip()` (both ends, default whitespace). -/
def pyStrip (l : List Char) : List Char :=
  ((l.dropWhile pyWs).reverse.dropWhile pyWs).reverse

/-- Python `str.split('\n')`. -/
def splitNl : List Char → List (List Char)
  | [] => [[]]
  | c :: rest =>
    if c = '\n' then [] :: splitNl rest
    else
      match splitNl rest with
      | [] => [[c]]
      | h :: t => (c :: h) :: t

/-- Python `'\n'.join(...)`. -/
def joinNl : List (List Char) → List Char
  | [] => []
  | [l] => l
  | l :: rest => l ++ '\n' :: joinNl rest

/-- One scanning pass of `re.split(r'\n\s*\n', s)`.

`cur` is the current segment (reversed).  `pending = some (hasSplit, tail)`
means we are inside a whitespace run that began with a `'\n'`; `hasSplit`
records whether a second `'\n'` has been seen (so the run contains a
separator match), and `tail` (reversed) holds the whitespace seen since the
most recent `'\n'` — the regex `\n\s*\n` is greedy, so a match extends to
the last `'\n'` of the run and `tail` belongs to the next segment. -/
def splitSepAux : List Char → Option (Bool × List Char) → List Char →
    List (List Char)
  | cur, none, [] => [cur.reverse]
  | cur, some (hasSplit, tail), [] =>
    if hasSplit then [cur.reverse, tail.reverse]
    else [(tail ++ '\n' :: cur).reverse]
  | cur, none, c :: rest =>
    if c = '\n' then splitSepAux cur (some (false, [])) rest
    else splitSepAux (c :: cur) none rest
  | cur, some (hasSplit, tail), c :: rest =>
    if c = '\n' then splitSepAux cur (some (true, [])) rest
    else if pyWs c then splitSepAux cur (some (hasSplit, c :: tail)) rest
    else if hasSplit then
      cur.reverse :: splitSepAux (c :: tail) none rest
    else
      splitSepAux (c :: (tail ++ '\n' :: cur)) none rest

/-- `re.split(r'\n\s*\n', s)`: split into blocks at blank-line runs. -/
def splitBlocks (s : List Char) : List (List Char) :=
  splitSepAux [] none s

/-- One scanning pass of `re.sub(r'<[^>]+>', '', s)`.

`out` is the emitted output (reversed).  `pending = some buf` means a `'<'`
has been seen and `buf` (reversed) holds the non-`'>'` characters after it;
a following `'>'` completes a match (dropped) when `buf` is nonempty, while
`"<>"` is not a match (`[^>]+` needs at least one character). -/
def removeTagsAux : List Char → Option (List Char) → List Char → List Char
  | out, none, [] => out.reverse
  | out, some buf, [] => (buf ++ '<' :: out).reverse
  | out, none, c :: rest =>
    if c = '<' then removeTagsAux out (some []) rest
    else removeTagsAux (c :: out) none rest
  | out, some buf, c :: rest =>
    if c = '>' then
      if buf.isEmpty then removeTagsAux ('>' :: '<' :: out) none rest
      else removeTagsAux out none rest
    else removeTagsAux out (some (c :: buf)) rest

/-- `re.sub(r'<[^>]+>', '', s)`: strip markup tags. -/
def removeTags (s : List Char) : List Char :=
  removeTagsAux [] none s

/-- Numeric value of a decimal digit character. -/
def digitVal (c : Char) : Int :=
  (c.toNat : Int) - 48

/-- Value of a digit string (most significant first). -/
def digitsVal (l : List Char) : Int :=
  l.foldl (fun acc c => 10 * acc + digitVal c) 0

/-- Digit run of a Python `int` literal after the first digit: digits with
single underscores allowed between digits. -/
def intDigitsRest : List Char → Bool
  | [] => true
  | c :: rest =>
    if c = '_' then
      match rest with
      | [] => false
      | d :: rest2 => d.isDigit && intDigitsRest rest2
    else c.isDigit && intDigitsRest rest

/-- Body of a Python `int` literal: nonempty digits, single underscores
allowed between digits. -/
def intDigitsOk : List Char → Bool
  | [] => false
  | c :: rest => c.isDigit && intDigitsRest rest

/-- Python `int(s)` on an already-stripped string: optional sign, then
digits; anything else raises `ValueError` (`none`). -/
def pyInt (l : List Char) : Option Int :=
  match l with
  | '+' :: rest =>
    if intDigitsOk rest then some (digitsVal (rest.filter (fun c => c != '_')))
    else none
  | '-' :: rest =>
    if intDigitsOk rest then some (-(digitsVal (rest.filter (fun c => c != '_'))))
    else none
  | _ =>
    if intDigitsOk l then some (digitsVal (l.filter (fun c => c != '_')))
    else none

/-- Regex `\d{1,2}:` with backtracking: two digits then `':'`, else one
digit then `':'`.  Returns the consumed digits and the rest after `':'`. -/
def parseHH : List Char → Option (List Char × List Char)
  | c1 :: c2 :: rest =>
    if c1.isDigit then
      if c2.isDigit then
        match rest with
        | ':' :: rest2 => some ([c1, c2], rest2)
        | _ => none
      else if c2 = ':' then some ([c1], rest)
      else none
    else none
  | _ => none

/-- Exactly two digits. -/
def parse2 : List Char → Option (List Char × List Char)
  | a :: b :: rest => if a.isDigit && b.isDigit then some ([a, b], rest) else none
  | _ => none

/-- Exactly three digits. -/
def parse3 : List Char → Option (List Char × List Char)
  | a :: b :: c :: rest =>
    if a.isDigit && b.isDigit && c.isDigit then some ([a, b, c], rest) else none
  | _ => none

/-- One timestamp group `\d{1,2}:\d{2}:\d{2}[,\.]\d{3}`: returns the
matched text and the rest of the input. -/
def tsGroup (l : List Char) : Option (List Char × List Char) :=
  match parseHH l with
  | none => none
  | some (hh, r1) =>
    match parse2 r1 with
    | none => none
    | some (mm, r2) =>
      match r2 with
      | ':' :: r3 =>
        match parse2 r3 with
        | none => none
        | some (ss, r4) =>
          match r4 with
          | sep :: r5 =>
            if sep = ',' || sep = '.' then
              match parse3 r5 with
              | none => none
              | some (mmm, r6) =>
                some (hh ++ ':' :: mm ++ ':' :: ss ++ sep :: mmm, r6)
            else none
          | _ => none
      | _ => none

/-- The timestamp-line regex of `parse_srt_file` (`re.match`, anchored at
the start, trailing characters allowed):
`(\d{1,2}:\d{2}:\d{2}[,\.]\d{3})\s*-->\s*(\d{1,2}:\d{2}:\d{2}[,\.]\d{3})`.
Returns the two captured groups. -/
def tsLineMatch (l : List Char) : Option (List Char × List Char) :=
  match tsGroup l with
  | none => none
  | some (g1, r1) =>
    match r1.dropWhile pyWs with
    | '-' :: '-' :: '>' :: r2 =>
      match tsGroup (r2.dropWhile pyWs) with
      | none => none
      | some (g2, _) => some (g1, g2)
    | _ => none

/-- `timestamp_to_ms(timestamp)` from `srt_parser.py`: replace `','` by
`'.'`, re-match `(\d{1,2}):(\d{2}):(\d{2})\.(\d{3})` from the start, and
combine; a failed match raises `ValueError` (`none`). -/
def timestamp_to_ms (ts : List Char) : Option Int :=
  let t := ts.map (fun c => if c = ',' then '.' else c)
  match parseHH t with
  | none => none
  | some (hh, r1) =>
    match parse2 r1 with
    | none => none
    | some (mm, r2) =>
      match r2 with
      | ':' :: r3 =>
        match parse2 r3 with
        | none => none
        | some (ss, r4) =>
          match r4 with
          | '.' :: r5 =>
            match parse3 r5 with
            | none => none
            | some (mmm, _) =>
              some (digitsVal hh * 3600000 + digitsVal mm * 60000 +
                digitsVal ss * 1000 + digitsVal mmm)
          | _ => none
      | _ => none

/-- The body of the block loop in `parse_srt_file` (lines 102-145): strip
the block, skip if empty or fewer than 3 lines, parse the index line and
the timestamp line, join and strip the text lines, strip tags; any
`ValueError` skips the block (`none`). -/
def parseBlock (block : List Char) : Option Subtitle :=
  let b := pyStrip block
  if b.isEmpty then none
  else
    let lines := splitNl b
    if lines.length < 3 then none
    else
      match lines with
      | l0 :: l1 :: rest =>
        match pyInt (pyStrip l0) with
        | none => none
        | some idx =>
          match tsLineMatch (pyStrip l1) with
          | none => none
          | some (g1, g2) =>
            let text := removeTags (pyStrip (joinNl rest))
            match timestamp_to_ms g1 with
            | none => none
            | some sms =>
              match timestamp_to_ms g2 with
              | none => none
              | some ems => some ⟨idx, sms, ems, String.mk text⟩
      | _ => none

/-- `parse_srt_file` on decoded content: strip a leading byte-order mark,
strip, split into blank-line-separated blocks, parse each block (skipping
malformed ones), and sort the result by `start_ms` (a stable sort, like
Python's `list.sort`). -/
def parse_srt_content (content : String) : List Subtitle :=
  let c1 := content.data.dropWhile (fun c => c = '\uFEFF')
  let blocks := splitBlocks (pyStrip c1)
  let subs := blocks.filterMap parseBlock
  List.insertionSort (fun a b => a.start_ms ≤ b.start_ms) subs

/-- `parse_srt_file`'s encoding loop: each candidate encoding either
decodes the file to a content string or raises `UnicodeDecodeError`
(`none`); the first success is parsed, and if every candidate fails the
function raises `ValueError` (the `.error` case). -/
def parse_srt_file (attempts : List (Option String)) :
    Except String (List Subtitle) :=
  match attempts.reduceOption with
  | [] => .error ("Could not decode file with any supported encoding")
  | content :: _ => .ok (parse_srt_content content)

/-- Concrete cues used by witnesses and counterexamples (the shapes of the
spec's Scenario A/B). -/
def cueA : Subtitle := ⟨1, 1000, 4000, "Hello"⟩

/-- Second concrete cue. -/
def cueB : Subtitle := ⟨2, 5500, 8200, "Second line"⟩

/-- A two-cue demo list, well-formed and separated. -/
def demoCues : List Subtitle := [cueA, cueB]

/-- A single cue whose range starts at 5000 ms, for the offset-direction
counterexample. -/
def cueMid : Subtitle := ⟨1, 5000, 8000, "Mid"⟩

/-- Scenario E source: a malformed two-line block between two well-formed
blocks. -/
def scenarioE : String :=
  "1\n00:00:01,000 --> 00:00:04,000\nFirst\n\n2\n00:00:05,000 --> 00:00:06,000\n\n3\n00:00:07,000 --> 00:00:08,000\nThird"

/-- An `ok` result of Python indexing is an element of the list. -/
theorem pyIndex_ok_mem {α : Type} {l : List α} {i : Int} {x : α}
    (h : pyIndex l i = .ok x) : x ∈ l := by
  unfold pyIndex at h
  split at h
  · cases h
    exact List.get_mem _ _ _
  · cases h

/-- Python indexing at an in-range nonnegative index returns that element. -/
theorem pyIndex_at {α : Type} (l : List α) (i : Int) (h0 : 0 ≤ i)
    (hl : i < (l.length : Int)) :
    pyIndex l i = .ok (l.get ⟨i.toNat, by omega⟩) := by
  have hj : pyIdx l i = i := by
    unfold pyIdx
    omega
  unfold pyIndex
  split
  · simp only [hj]
  · rw [hj] at *
    omega

/-- Zeta-reduced unfolding equation for `bsearchCore`. -/
theorem bsearchCore_eq (subs : List Subtitle) (t l r : Int) :
    bsearchCore subs t l r =
      if l ≤ r then
        match pyIndex subs ((l + r).fdiv 2) with
        | .error e => .error e
        | .ok sub =>
          if sub.start_ms ≤ t ∧ t ≤ sub.end_ms then .ok (some sub)
          else if t < sub.start_ms then bsearchCore subs t l ((l + r).fdiv 2 - 1)
          else bsearchCore subs t ((l + r).fdiv 2 + 1) r
      else .ok none := by
  rw [bsearchCore]

/-- The midpoint `(l + r) // 2` stays inside a nonempty interval. -/
theorem fdiv_mid_bounds {l r : Int} (h : l ≤ r) :
    l ≤ (l + r).fdiv 2 ∧ (l + r).fdiv 2 ≤ r := by
  rw [Int.fdiv_eq_ediv _ (by omega)]
  omega

/-- Soundness of the search loop: any subtitle it returns is an element of
the list whose range contains the query time.  Needs no sortedness. -/
theorem bsearchCore_sound (subs : List Subtitle) (t : Int) :
    ∀ (n : Nat) (l r : Int), (r + 1 - l).toNat ≤ n →
    ∀ {c : Subtitle}, bsearchCore subs t l r = .ok (some c) →
    c ∈ subs ∧ c.start_ms ≤ t ∧ t ≤ c.end_ms := by
  intro n
  induction n with
  | zero =>
    intro l r hm c h
    rw [bsearchCore_eq] at h
    have hnlr : ¬ l ≤ r := by omega
    simp only [hnlr, if_false] at h
    simp at h
  | succ n ih =>
    intro l r hm c h
    rw [bsearchCore_eq] at h
    by_cases hlr : l ≤ r
    · have hmid := fdiv_mid_bounds hlr
      simp only [hlr, if_true] at h
      cases hpy : pyIndex subs ((l + r).fdiv 2) with
      | error e => rw [hpy] at h; cases h
      | ok sub =>
        rw [hpy] at h
        by_cases hc : sub.start_ms ≤ t ∧ t ≤ sub.end_ms
        · simp only [hc, if_true] at h
          cases h
          exact ⟨pyIndex_ok_mem hpy, hc⟩
        · simp only [hc, if_false] at h
          by_cases hlt : t < sub.start_ms
          · simp only [hlt, if_true] at h
            exact ih l ((l + r).fdiv 2 - 1) (by omega) h
          · simp only [hlt, if_false] at h
            exact ih ((l + r).fdiv 2 + 1) r (by omega) h
    · simp only [hlr, if_false] at h
      cases h

/-- The search loop never indexes out of bounds when entered with
`0 ≤ l` and `r < length`: it always returns an `ok` result. -/
theorem bsearchCore_no_error (subs : List Subtitle) (t : Int) :
    ∀ (n : Nat) (l r : Int), (r + 1 - l).toNat ≤ n →
    0 ≤ l → r < (subs.length : Int) →
    ∃ o, bsearchCore subs t l r = .ok o := by
  intro n
  induction n with
  | zero =>
    intro l r hm hl hr
    rw [bsearchCore_eq]
    have hnlr : ¬ l ≤ r := by omega
    simp only [hnlr, if_false]
    exact ⟨none, rfl⟩
  | succ n ih =>
    intro l r hm hl hr
    rw [bsearchCore_eq]
    by_cases hlr : l ≤ r
    · have hmid := fdiv_mid_bounds hlr
      simp only [hlr, if_true]
      rw [pyIndex_at subs ((l + r).fdiv 2) (by omega) (by omega)]
      set sub := subs.get ⟨((l + r).fdiv 2).toNat, by omega⟩ with hsub
      by_cases hc : sub.start_ms ≤ t ∧ t ≤ sub.end_ms
      · simp only [hc, if_true]
        exact ⟨some sub, rfl⟩
      · simp only [hc, if_false]
        by_cases hlt : t < sub.start_ms
        · simp only [hlt, if_true]
          exact ih l ((l + r).fdiv 2 - 1) (by omega) hl (by omega)
        · simp only [hlt, if_false]
          exact ih ((l + r).fdiv 2 + 1) r (by omega) (by omega) hr
    · simp only [hlr, if_false]
      exact ⟨none, rfl⟩

/-- Consecutive separation (`end < next start`) plus well-formed ranges
(`start ≤ end`) give separation between any two indices. -/
theorem chain_sep (subs : List Subtitle)
    (hwf : ∀ c ∈ subs, c.start_ms ≤ c.end_ms)
    (hchain : List.Chain' (fun a b => a.end_ms < b.start_ms) subs) :
    ∀ i j : Fin subs.length, i < j →
      (subs.get i).end_ms < (subs.get j).start_ms := by
  have hstep := List.chain'_iff_get.mp hchain
  have aux : ∀ (d i : Nat) (h : i + 1 + d < subs.length),
      (subs.get ⟨i, by omega⟩).end_ms < (subs.get ⟨i + 1 + d, h⟩).start_ms := by
    intro d
    induction d with
    | zero =>
      intro i h
      exact hstep i (by omega)
    | succ d ih =>
      intro i h
      have h1 : i + 1 + d < subs.length := by omega
      have h2 := ih i h1
      have h3 := hwf (subs.get ⟨i + 1 + d, h1⟩) (List.get_mem _ _ _)
      have h4 := hstep (i + 1 + d) (by omega)
      calc (subs.get ⟨i, by omega⟩).end_ms
          < (subs.get ⟨i + 1 + d, h1⟩).start_ms := h2
        _ ≤ (subs.get ⟨i + 1 + d, h1⟩).end_ms := h3
        _ < (subs.get ⟨i + 1 + d + 1, by omega⟩).start_ms := h4
  intro i j hij
  obtain ⟨d, hd⟩ : ∃ d, (j : Nat) = (i : Nat) + 1 + d :=
    ⟨(j : Nat) - (i : Nat) - 1, by omega⟩
  have h := aux d (i : Nat) (by omega)
  have hi : subs.get ⟨(i : Nat), by omega⟩ = subs.get i := by
    congr 1
  have hjj : subs.get ⟨(i : Nat) + 1 + d, by omega⟩ = subs.get j := by
    congr 1
    exact Fin.ext hd.symm
  rw [hi, hjj] at h
  exact h

/-- Completeness of the search loop: with separated, well-formed ranges and
the usual interval invariants, the loop finds the subtitle containing the
query time. -/
theorem bsearchCore_finds (subs : List Subtitle) (t : Int)
    (hwf : ∀ c ∈ subs, c.start_ms ≤ c.end_ms)
    (hsort : ∀ i j : Fin subs.length, i < j →
      (subs.get i).end_ms < (subs.get j).start_ms) :
    ∀ (n : Nat) (l r : Int), (r + 1 - l).toNat ≤ n →
    0 ≤ l → r < (subs.length : Int) →
    (∀ i : Fin subs.length, ((i : Nat) : Int) < l → (subs.get i).end_ms < t) →
    (∀ i : Fin subs.length, r < ((i : Nat) : Int) → t < (subs.get i).start_ms) →
    ∀ i : Fin subs.length,
      (subs.get i).start_ms ≤ t → t ≤ (subs.get i).end_ms →
    bsearchCore subs t l r = .ok (some (subs.get i)) := by
  intro n
  induction n with
  | zero =>
    intro l r hm hl hr hll hrr i his hie
    exfalso
    have hi := i.isLt
    by_cases hc : ((i : Nat) : Int) < l
    · exact absurd (hll i hc) (by omega)
    · exact absurd (hrr i (by omega)) (by omega)
  | succ n ih =>
    intro l r hm hl hr hll hrr i his hie
    by_cases hlr : l ≤ r
    · have hmid := fdiv_mid_bounds hlr
      rw [bsearchCore_eq]
      simp only [hlr, if_true]
      rw [pyIndex_at subs ((l + r).fdiv 2) (by omega) (by omega)]
      have hmlt : ((l + r).fdiv 2).toNat < subs.length := by omega
      dsimp only
      set midF : Fin subs.length := ⟨((l + r).fdiv 2).toNat, hmlt⟩ with hmidF
      have hmcast : ((midF : Nat) : Int) = (l + r).fdiv 2 := by
        simp only [hmidF]
        omega
      by_cases hc : (subs.get midF).start_ms ≤ t ∧ t ≤ (subs.get midF).end_ms
      · rw [if_pos hc]
        have : i = midF := by
          by_contra hne
          rcases Nat.lt_or_ge (i : Nat) (midF : Nat) with hlt | hge
          · exact absurd (hsort i midF (by exact hlt)) (by omega)
          · have : (midF : Nat) < (i : Nat) := by
              rcases Nat.eq_or_lt_of_le hge with he | hl2
              · exact absurd (Fin.ext he.symm) hne
              · exact hl2
            exact absurd (hsort midF i this) (by omega)
        rw [this]
      · rw [if_neg hc]
        by_cases hlt : t < (subs.get midF).start_ms
        · rw [if_pos hlt]
          apply ih l ((l + r).fdiv 2 - 1) (by omega) hl (by omega) hll _ i his hie
          intro j hj
          rcases Nat.lt_or_ge (midF : Nat) (j : Nat) with hgt | hle
          · have hsep := hsort midF j (by exact hgt)
            have hwfm := hwf (subs.get midF) (List.get_mem _ _ _)
            omega
          · have : (j : Nat) = (midF : Nat) := by omega
            have hje : j = midF := Fin.ext this
            rw [hje]
            exact hlt
        · rw [if_neg hlt]
          apply ih ((l + r).fdiv 2 + 1) r (by omega) (by omega) hr _ hrr i his hie
          intro j hj
          have hend : (subs.get midF).end_ms < t := by omega
          rcases Nat.lt_or_ge (j : Nat) (midF : Nat) with hlt2 | hge
          · have hsep := hsort j midF (by exact hlt2)
            omega
          · have : (j : Nat) = (midF : Nat) := by omega
            have hje : j = midF := Fin.ext this
            rw [hje]
            exact hend
    · exfalso
      have hi := i.isLt
      by_cases hc : ((i : Nat) : Int) < l
      · exact absurd (hll i hc) (by omega)
      · exact absurd (hrr i (by omega)) (by omega)

/-- Whatever `get_subtitle_at_time` returns is a list element whose range
contains the query (no sortedness assumptions). -/
theorem get_subtitle_at_time_sound {subs : List Subtitle} {t : Int}
    {c : Subtitle} (h : get_subtitle_at_time subs t = some c) :
    c ∈ subs ∧ c.start_ms ≤ t ∧ t ≤ c.end_ms := by
  unfold get_subtitle_at_time at h
  split at h
  · cases h
  · cases hb : bsearchCore subs t 0 ((subs.length : Int) - 1) with
    | ok r =>
      rw [hb] at h
      dsimp only at h
      subst h
      exact bsearchCore_sound subs t ((subs.length : Int) - 1 + 1 - 0).toNat
        0 ((subs.length : Int) - 1) le_rfl hb
    | error e =>
      rw [hb] at h
      cases h

/-- If no subtitle's range contains the query time, the lookup returns
`none` (no sortedness assumptions). -/
theorem get_subtitle_at_time_none {subs : List Subtitle} {t : Int}
    (h : ∀ c ∈ subs, ¬(c.start_ms ≤ t ∧ t ≤ c.end_ms)) :
    get_subtitle_at_time subs t = none := by
  cases hres : get_subtitle_at_time subs t with
  | none => rfl
  | some c =>
    obtain ⟨hm, hc⟩ := get_subtitle_at_time_sound hres
    exact absurd hc (h c hm)

/-- With well-formed, separated cues, the lookup finds the containing
subtitle. -/
theorem get_subtitle_at_time_complete {subs : List Subtitle}
    (hwf : ∀ c ∈ subs, c.start_ms ≤ c.end_ms)
    (hchain : List.Chain' (fun a b => a.end_ms < b.start_ms) subs)
    {t : Int} {c : Subtitle} (hm : c ∈ subs)
    (hs : c.start_ms ≤ t) (he : t ≤ c.end_ms) :
    get_subtitle_at_time subs t = some c := by
  have hne : subs.isEmpty = false := by
    cases subs
    · cases hm
    · rfl
  obtain ⟨i, hi⟩ := List.mem_iff_get.mp hm
  have hfind := bsearchCore_finds subs t hwf (chain_sep subs hwf hchain)
    ((subs.length : Int) - 1 + 1 - 0).toNat 0 ((subs.length : Int) - 1)
    le_rfl (by omega)
    (by omega)
    (by
      intro j hj0
      exfalso
      omega)
    (by
      intro j hjr
      exfalso
      have := j.isLt
      omega)
    i (by rw [hi]; exact hs) (by rw [hi]; exact he)
  unfold get_subtitle_at_time
  rw [if_neg (by simp [hne]), hfind]
  exact congrArg some hi

/-- A list of decode attempts flattens to `[]` exactly when every attempt
failed. -/
theorem reduceOption_nil_iff {α : Type} (l : List (Option α)) :
    l.reduceOption = [] ↔ ∀ a ∈ l, a = none := by
  unfold List.reduceOption
  rw [List.filterMap_eq_nil_iff]
  simp

/-- Membership in the parse result is exactly "some block parses to this
cue": malformed blocks are skipped, well-formed ones all contribute. -/
theorem mem_parse_srt_content (content : String) (c : Subtitle) :
    c ∈ parse_srt_content content ↔
      ∃ b ∈ splitBlocks
        (pyStrip (content.data.dropWhile (fun ch => ch = '\uFEFF'))),
        parseBlock b = some c := by
  unfold parse_srt_content
  rw [List.Perm.mem_iff (List.perm_insertionSort _ _), List.mem_filterMap]

/-- Lookup in a one-cue list is the containment test. -/
theorem get_subtitle_at_time_singleton (c : Subtitle) (t : Int) :
    get_subtitle_at_time [c] t =
      if c.start_ms ≤ t ∧ t ≤ c.end_ms then some c else none := by
  by_cases hc : c.start_ms ≤ t ∧ t ≤ c.end_ms
  · rw [if_pos hc]
    refine get_subtitle_at_time_complete ?_ ?_ (List.mem_singleton_self c)
      hc.1 hc.2
    · intro x hx
      rw [List.mem_singleton] at hx
      subst hx
      exact le_trans hc.1 hc.2
    · simp
  · rw [if_neg hc]
    refine get_subtitle_at_time_none ?_
    intro x hx
    rw [List.mem_singleton] at hx
    subst hx
    exact hc


/-- Characters other than `'<'` pass through the tag scanner unchanged. -/
theorem removeTagsAux_emit (body : List Char) (hbody : ∀ c ∈ body, c ≠ '<') :
    ∀ out rest, removeTagsAux out none (body ++ rest) =
      removeTagsAux (body.reverse ++ out) none rest := by
  induction body with
  | nil =>
    intro out rest
    simp
  | cons c cs ih =>
    intro out rest
    have hc : ¬ c = '<' := hbody c (List.mem_cons_self c cs)
    simp only [List.cons_append, removeTagsAux, if_neg hc, List.append_eq]
    rw [ih (fun x hx => hbody x (List.mem_cons_of_mem c hx))]
    simp [List.append_assoc]

/-- Non-`'>'` characters accumulate into the pending tag buffer. -/
theorem removeTagsAux_buf (tag : List Char) (htag : ∀ c ∈ tag, c ≠ '>') :
    ∀ out buf rest, removeTagsAux out (some buf) (tag ++ rest) =
      removeTagsAux out (some (tag.reverse ++ buf)) rest := by
  induction tag with
  | nil =>
    intro out buf rest
    simp
  | cons c cs ih =>
    intro out buf rest
    have hc : ¬ c = '>' := htag c (List.mem_cons_self c cs)
    simp only [List.cons_append, removeTagsAux, if_neg hc, List.append_eq]
    rw [ih (fun x hx => htag x (List.mem_cons_of_mem c hx))]
    simp [List.append_assoc]

/-- `re.sub(r'<[^>]+>', '', ·)` removes one whole tag. -/
theorem removeTagsAux_one_tag (tag : List Char) (htag : ∀ c ∈ tag, c ≠ '>')
    (hne : tag ≠ []) :
    ∀ out rest, removeTagsAux out none ('<' :: (tag ++ '>' :: rest)) =
      removeTagsAux out none rest := by
  intro out rest
  have h1 : removeTagsAux out none ('<' :: (tag ++ '>' :: rest)) =
      removeTagsAux out (some []) (tag ++ '>' :: rest) := by
    simp [removeTagsAux]
  rw [h1, removeTagsAux_buf tag htag, List.append_nil]
  have hb : tag.reverse.isEmpty = false := by
    cases h : tag.reverse with
    | nil => exact absurd (List.reverse_eq_nil_iff.mp h) hne
    | cons a l => rfl
  simp [removeTagsAux, hb]

/-- Stripping a `<tag>body</tag>` pair (any tag name without `'>'`, body
without `'<'`) leaves exactly the body. -/
theorem removeTags_tag_pair (tag body : List Char)
    (htag : ∀ c ∈ tag, c ≠ '>') (hne : tag ≠ [])
    (hbody : ∀ c ∈ body, c ≠ '<') :
    removeTags ('<' :: (tag ++ '>' :: (body ++ '<' :: ('/' :: tag ++ ['>'])))) =
      body := by
  unfold removeTags
  rw [removeTagsAux_one_tag tag htag hne]
  rw [removeTagsAux_emit body hbody]
  rw [show ('/' :: tag ++ ['>'] : List Char) = ('/' :: tag) ++ '>' :: [] from rfl]
  rw [removeTagsAux_one_tag ('/' :: tag)
    (by
      intro c hc
      rcases List.mem_cons.mp hc with h | h
      · subst h
        decide
      · exact htag c h)
    (by simp)]
  simp [removeTagsAux]

/-- Stripping a lone `<tag>` (so also a self-closing `<tag/>`) leaves
nothing. -/
theorem removeTags_one (tag : List Char)
    (htag : ∀ c ∈ tag, c ≠ '>') (hne : tag ≠ []) :
    removeTags ('<' :: (tag ++ ['>'])) = [] := by
  unfold removeTags
  rw [show (tag ++ ['>'] : List Char) = tag ++ '>' :: [] from rfl]
  rw [removeTagsAux_one_tag tag htag hne]
  rfl

/-- C2: Resume continuity — for an engine paused with frozen elapsed
`pause_elapsed` (not running, previously started), calling `start()` at
wall time `resumeT` and reading elapsed at any wall time `t` yields
`pause_elapsed + (t - resumeT)`; at the resume instant itself the clock is
exactly the frozen value, so resuming neither jumps backward nor skips
ahead of true wall-clock progress. -/
theorem C2_resume_continuity (s : SubtitleSync) (st resumeT t : Int)
    (hrun : s.is_running = false) (hst : s.start_time = some st) :
    (s.start resumeT).get_elapsed_ms t = s.pause_elapsed + (t - resumeT) ∧
    (s.start resumeT).get_elapsed_ms resumeT = s.pause_elapsed := by
  have h1 : s.start resumeT =
      { s with start_time := some (resumeT - s.pause_elapsed),
               is_running := true } := by
    unfold SubtitleSync.start
    rw [hrun, hst]
    simp
  rw [h1]
  unfold SubtitleSync.get_elapsed_ms
  simp
  ring

/-- Witness for C2 at a concrete run: start at 0, pause at 700 (elapsed
700), resume at 1000, read at 1500: elapsed is 700 + 500. -/
theorem C2_witness :
    ((((SubtitleSync.mk' []).start 0).pause 700).start 1000).get_elapsed_ms
        1500 = 700 + (1500 - 1000) :=
  (C2_resume_continuity (((SubtitleSync.mk' []).start 0).pause 700) 0
    1000 1500 (by decide) (by decide)).1

/-- C5: `reset()` clears the anchor, zeroes the frozen elapsed time (so
elapsed reads 0 at any wall time), stops the engine and clears the cached
active cue, while leaving `offset_ms` and the loaded cue list unchanged. -/
theorem C5_reset_frame (s : SubtitleSync) (now : Int) :
    s.reset.start_time = none ∧ s.reset.pause_elapsed = 0 ∧
    s.reset.is_running = false ∧ s.reset.current_subtitle = none ∧
    s.reset.offset_ms = s.offset_ms ∧ s.reset.subtitles = s.subtitles ∧
    s.reset.get_elapsed_ms now = 0 :=
  ⟨rfl, rfl, rfl, rfl, rfl, rfl, rfl⟩

/-- C10: `start()` while already running and `pause()` while not running
are exact no-ops: the entire engine state is returned unchanged. -/
theorem C10_start_pause_guards (s : SubtitleSync) (now : Int) :
    (s.is_running = true → s.start now = s) ∧
    (s.is_running = false → s.pause now = s) := by
  constructor
  · intro h
    unfold SubtitleSync.start
    simp [h]
  · intro h
    unfold SubtitleSync.pause
    simp [h]

/-- Witness for C10: a started engine is unchanged by a second `start`,
and a fresh (stopped) engine is unchanged by `pause`. -/
theorem C10_witness :
    ((SubtitleSync.mk' []).start 5).start 9 = (SubtitleSync.mk' []).start 5 ∧
    (SubtitleSync.mk' []).pause 3 = SubtitleSync.mk' [] :=
  ⟨(C10_start_pause_guards ((SubtitleSync.mk' []).start 5) 9).1 (by decide),
   (C10_start_pause_guards (SubtitleSync.mk' []) 3).2 (by decide)⟩

/-- Counterexample to C3 as stated: on a Stopped engine (never started,
`start_time = None`), `set_playback_time(9000)` does not make the reported
elapsed time 9000 — `get_elapsed_ms` still returns 0 because its
`start_time is None` branch ignores `pause_elapsed`. -/
theorem C3_counterexample :
    ¬ (((SubtitleSync.mk' []).set_playback_time 9000 0).get_elapsed_ms 500 =
        9000) := by
  decide

/-- C3 (amended): `set_playback_time(t)` always stores `t` in the frozen
elapsed field; while Paused (not running but previously started) the
reported elapsed time equals `t` and a subsequent `start()` continues
counting from `t`; while Running it re-anchors to `now - t` so elapsed
continues from `t`; but while Stopped (`start_time = None`) the reported
elapsed time stays 0 and a subsequent `start()` restarts from zero. -/
theorem C3_set_playback_time (s : SubtitleSync) (t now : Int) :
    ((s.set_playback_time t now).pause_elapsed = t)
    ∧ (s.is_running = false → s.start_time ≠ none →
        ∀ t2, (s.set_playback_time t now).get_elapsed_ms t2 = t)
    ∧ (s.is_running = true →
        (s.set_playback_time t now).start_time = some (now - t) ∧
        ∀ t2, (s.set_playback_time t now).get_elapsed_ms t2 = t + (t2 - now))
    ∧ (s.is_running = false → s.start_time ≠ none →
        ∀ rT t2, ((s.set_playback_time t now).start rT).get_elapsed_ms t2 =
          t + (t2 - rT))
    ∧ (s.is_running = false → s.start_time = none →
        (∀ t2, (s.set_playback_time t now).get_elapsed_ms t2 = 0) ∧
        (∀ rT t2,
          ((s.set_playback_time t now).start rT).get_elapsed_ms t2 =
            t2 - rT)) := by
  refine ⟨rfl, ?_, ?_, ?_, ?_⟩
  · intro hrun hst t2
    obtain ⟨st, hst'⟩ := Option.ne_none_iff_exists'.mp hst
    unfold SubtitleSync.set_playback_time SubtitleSync.get_elapsed_ms
    rw [hrun, hst']
    simp
  · intro hrun
    unfold SubtitleSync.set_playback_time SubtitleSync.get_elapsed_ms
    rw [hrun]
    simp
    intro t2
    ring
  · intro hrun hst rT t2
    obtain ⟨st, hst'⟩ := Option.ne_none_iff_exists'.mp hst
    have h1 : (s.set_playback_time t now).start rT =
        { s with start_time := some (rT - t), pause_elapsed := t,
                 is_running := true } := by
      unfold SubtitleSync.set_playback_time SubtitleSync.start
      rw [hrun]
      simp [hst']
    rw [h1]
    unfold SubtitleSync.get_elapsed_ms
    simp
    ring
  · intro hrun hst
    constructor
    · intro t2
      unfold SubtitleSync.set_playback_time SubtitleSync.get_elapsed_ms
      rw [hrun, hst]
      simp
    · intro rT t2
      have h1 : (s.set_playback_time t now).start rT =
          { s with start_time := some rT, pause_elapsed := 0,
                   is_running := true } := by
        unfold SubtitleSync.set_playback_time SubtitleSync.start
        rw [hrun, hst]
        simp
      rw [h1]
      unfold SubtitleSync.get_elapsed_ms
      simp

/-- Witness for C3 (amended), the spec's Scenario D: on an engine paused
at elapsed 1000, `set_playback_time(9000)` makes elapsed read 9000, and a
subsequent `start()` at wall 5000 read at 5500 gives 9500. -/
theorem C3_witness :
    ((((SubtitleSync.mk' []).start 0).pause 1000).set_playback_time 9000
        2000).get_elapsed_ms 4444 = 9000 ∧
    (((((SubtitleSync.mk' []).start 0).pause 1000).set_playback_time 9000
        2000).start 5000).get_elapsed_ms 5500 = 9000 + (5500 - 5000) :=
  ⟨(C3_set_playback_time (((SubtitleSync.mk' []).start 0).pause 1000) 9000
      2000).2.1 (by decide) (by decide) 4444,
   (C3_set_playback_time (((SubtitleSync.mk' []).start 0).pause 1000) 9000
      2000).2.2.2.1 (by decide) (by decide) 5000 5500⟩

/-- C9: the lookup is total on every cue list — empty, unsorted,
overlapping or inverted: the search loop entered as `get_subtitle_at_time`
enters it never hits the `IndexError` branch, and the result is either
`none` or a cue of the list whose range contains the query.  (Termination
itself is witnessed by `bsearchCore` being a total function, defined by
recursion on the strictly shrinking interval size `right + 1 - left`.) -/
theorem C9_lookup_total (subs : List Subtitle) (t : Int) :
    (∃ o, bsearchCore subs t 0 ((subs.length : Int) - 1) = .ok o) ∧
    (get_subtitle_at_time subs t = none ∨
      ∃ c ∈ subs, get_subtitle_at_time subs t = some c ∧
        c.start_ms ≤ t ∧ t ≤ c.end_ms) := by
  constructor
  · exact bsearchCore_no_error subs t
      (((subs.length : Int) - 1 + 1 - 0).toNat) 0 ((subs.length : Int) - 1)
      le_rfl le_rfl (by omega)
  · cases h : get_subtitle_at_time subs t with
    | none => exact Or.inl rfl
    | some c =>
      obtain ⟨hm, hc⟩ := get_subtitle_at_time_sound h
      exact Or.inr ⟨c, hm, rfl, hc⟩

/-- C1: for a well-formed, separated cue list (each `start ≤ end`, each
`end` before the next cue's `start`), lookup is boundary-inclusive — a
query at a cue's `start_ms` or `end_ms` returns that cue — and gap-aware —
a query strictly between two consecutive cues' ranges returns `none` — and
in general the binary search returns a cue exactly when its range contains
the query time. -/
theorem C1_lookup_roundtrip (subs : List Subtitle)
    (hwf : ∀ c ∈ subs, c.start_ms ≤ c.end_ms)
    (hchain : List.Chain' (fun a b => a.end_ms < b.start_ms) subs) :
    (∀ c ∈ subs, get_subtitle_at_time subs c.start_ms = some c ∧
      get_subtitle_at_time subs c.end_ms = some c) ∧
    (∀ (i j : Fin subs.length) (t : Int), (j : Nat) = (i : Nat) + 1 →
      (subs.get i).end_ms < t → t < (subs.get j).start_ms →
      get_subtitle_at_time subs t = none) ∧
    (∀ (t : Int) (c : Subtitle),
      get_subtitle_at_time subs t = some c ↔
        c ∈ subs ∧ c.start_ms ≤ t ∧ t ≤ c.end_ms) := by
  have hsort := chain_sep subs hwf hchain
  refine ⟨?_, ?_, ?_⟩
  · intro c hc
    exact ⟨get_subtitle_at_time_complete hwf hchain hc le_rfl (hwf c hc),
      get_subtitle_at_time_complete hwf hchain hc (hwf c hc) le_rfl⟩
  · intro i j t hij hgt hlt
    refine get_subtitle_at_time_none ?_
    intro x hx hcont
    obtain ⟨hs, he⟩ := hcont
    obtain ⟨k, hk⟩ := List.mem_iff_get.mp hx
    subst hk
    rcases Nat.lt_trichotomy (k : Nat) (i : Nat) with hlt2 | heq | hgt2
    · have h1 := hsort k i hlt2
      have h2 := hwf (subs.get i) (List.get_mem _ _ _)
      omega
    · have hke : k = i := Fin.ext heq
      subst hke
      omega
    · rcases Nat.lt_trichotomy (k : Nat) (j : Nat) with hlt3 | heq3 | hgt3
      · omega
      · have hke : k = j := Fin.ext heq3
        subst hke
        omega
      · have h1 := hsort j k hgt3
        have h2 := hwf (subs.get j) (List.get_mem _ _ _)
        omega
  · intro t c
    constructor
    · intro h
      exact get_subtitle_at_time_sound h
    · intro ⟨hm, hs, he⟩
      exact get_subtitle_at_time_complete hwf hchain hm hs he

/-- Witness for C1 on the two-cue demo list: boundary queries return the
cue, a query in the gap returns none, and the iff holds at 6000 ms. -/
theorem C1_witness :
    get_subtitle_at_time demoCues 1000 = some cueA ∧
    get_subtitle_at_time demoCues 4000 = some cueA ∧
    get_subtitle_at_time demoCues 4500 = none ∧
    (get_subtitle_at_time demoCues 6000 = some cueB ↔
      cueB ∈ demoCues ∧ cueB.start_ms ≤ 6000 ∧ 6000 ≤ cueB.end_ms) := by
  have h := C1_lookup_roundtrip demoCues (by decide)
    (by norm_num [demoCues, cueA, cueB, List.chain'_cons])
  exact ⟨(h.1 cueA (by decide)).1, (h.1 cueA (by decide)).2,
    h.2.1 ⟨0, by decide⟩ ⟨1, by decide⟩ 4500 (by decide) (by decide)
      (by decide),
    h.2.2 6000 cueB⟩

/-- Counterexample to C4 as stated: with cue `[5000, 8000]` and
`offset_ms = +2000`, the cue is already the active cue at wall-elapsed
3000 (adjusted time 5000), while with zero offset it is not — so a
positive offset makes the cue's appearance *earlier* in wall-elapsed time,
not later/delayed as the claim says. -/
theorem C4_counterexample :
    (((SubtitleSync.mk' [cueMid]).start 0).adjust_offset 2000).get_current_subtitle
        3000 = some cueMid ∧
    ((SubtitleSync.mk' [cueMid]).start 0).get_current_subtitle 3000 = none := by
  constructor
  · show get_subtitle_at_time [cueMid] (3000 - 0 + (0 + 2000)) = some cueMid
    rw [show (3000 - 0 + (0 + 2000) : Int) = 5000 by norm_num]
    rw [get_subtitle_at_time_singleton, if_pos (by decide)]
  · show get_subtitle_at_time [cueMid] (3000 - 0 + 0) = none
    rw [show (3000 - 0 + 0 : Int) = 3000 by norm_num]
    rw [get_subtitle_at_time_singleton, if_neg (by decide)]

/-- C4 (amended): the adjusted time is raw elapsed plus `offset_ms`, every
cue lookup goes through the adjusted time (never raw elapsed), and a
positive `offset_ms` shifts the effective query time later relative to
wall elapsed so that each cue becomes active *earlier* in wall-elapsed
time: a running engine with offset `o` shows cue `c` already at wall time
`anchor + c.start_ms - o` (for positive `o`, before `anchor + c.start_ms`);
a negative offset delays appearance symmetrically. -/
theorem C4_offset_semantics :
    (∀ (s : SubtitleSync) (now : Int),
      s.get_adjusted_time_ms now = s.get_elapsed_ms now + s.offset_ms) ∧
    (∀ (s : SubtitleSync) (now : Int), s.subtitles ≠ [] →
      s.get_current_subtitle now =
        get_subtitle_at_time s.subtitles (s.get_adjusted_time_ms now)) ∧
    (∀ (subs : List Subtitle) (o a w : Int), subs ≠ [] →
      (((SubtitleSync.mk' subs).start a).adjust_offset o).get_current_subtitle
          w = get_subtitle_at_time subs ((w - a) + o)) ∧
    (∀ (subs : List Subtitle) (o a : Int),
      (∀ c ∈ subs, c.start_ms ≤ c.end_ms) →
      List.Chain' (fun x y => x.end_ms < y.start_ms) subs →
      ∀ c ∈ subs,
        (((SubtitleSync.mk' subs).start a).adjust_offset o).get_current_subtitle
          (a + c.start_ms - o) = some c) := by
  have hcur : ∀ (s : SubtitleSync) (now : Int), s.subtitles ≠ [] →
      s.get_current_subtitle now =
        get_subtitle_at_time s.subtitles (s.get_adjusted_time_ms now) := by
    intro s now hne
    unfold SubtitleSync.get_current_subtitle
    rw [if_neg]
    rw [List.isEmpty_iff]
    exact hne
  refine ⟨fun s now => rfl, hcur, ?_, ?_⟩
  · intro subs o a w hne
    rw [hcur _ _ hne]
    show get_subtitle_at_time subs (w - a + (0 + o)) = _
    rw [zero_add]
  · intro subs o a hwf hchain c hc
    have hne : subs ≠ [] := by
      intro h
      subst h
      cases hc
    rw [hcur _ _ hne]
    show get_subtitle_at_time subs (a + c.start_ms - o - a + (0 + o)) = _
    rw [show (a + c.start_ms - o - a + (0 + o) : Int) = c.start_ms by ring]
    exact get_subtitle_at_time_complete hwf hchain hc le_rfl (hwf c hc)

/-- Witness for C4 (amended): with offset +2000 and anchor 0, `cueA`
(start 1000) is active already at wall time −1000, and the lookup of a
running offset engine is the adjusted-time lookup. -/
theorem C4_witness :
    (((SubtitleSync.mk' demoCues).start 0).adjust_offset 2000).get_current_subtitle
        (0 + cueA.start_ms - 2000) = some cueA ∧
    (((SubtitleSync.mk' demoCues).start 0).adjust_offset 2000).get_current_subtitle
        300 = get_subtitle_at_time demoCues ((300 - 0) + 2000) := by
  constructor
  · exact C4_offset_semantics.2.2.2 demoCues 2000 0 (by decide)
      (by norm_num [demoCues, cueA, cueB, List.chain'_cons]) cueA (by decide)
  · exact C4_offset_semantics.2.2.1 demoCues 2000 0 300 (by decide)

/-- C6: for every input source the parse result is sorted ascending by
`start_ms` — the sort is an unconditional final step — and the result is a
permutation of the cues collected from the blocks in input order (so
sortedness does not depend on block order). -/
theorem C6_parse_sorted (content : String) :
    List.Sorted (fun a b : Subtitle => a.start_ms ≤ b.start_ms)
      (parse_srt_content content) ∧
    (parse_srt_content content).Perm
      ((splitBlocks
        (pyStrip (content.data.dropWhile (fun ch => ch = '﻿')))).filterMap
        parseBlock) := by
  constructor
  · haveI : IsTotal Subtitle (fun a b => a.start_ms ≤ b.start_ms) :=
      ⟨fun a b => le_total _ _⟩
    haveI : IsTrans Subtitle (fun a b => a.start_ms ≤ b.start_ms) :=
      ⟨fun a b c hab hbc => le_trans hab hbc⟩
    unfold parse_srt_content
    exact List.sorted_insertionSort _ _
  · unfold parse_srt_content
    exact List.perm_insertionSort _ _

/-- C7: parsing never fails on malformed blocks — a cue is in the result
exactly when some block parses to it, a source whose blocks all fail
yields `[]` (not an error), Scenario E (a two-line malformed block between
two well-formed blocks) yields exactly the two good cues in order, and
`parse_srt_file` raises a hard error exactly when every candidate encoding
fails to decode. -/
theorem C7_malformed_skipped :
    (∀ (content : String) (c : Subtitle),
      c ∈ parse_srt_content content ↔
        ∃ b ∈ splitBlocks
          (pyStrip (content.data.dropWhile (fun ch => ch = '﻿'))),
          parseBlock b = some c) ∧
    (∀ content : String,
      (∀ b ∈ splitBlocks
        (pyStrip (content.data.dropWhile (fun ch => ch = '﻿'))),
        parseBlock b = none) →
      parse_srt_content content = []) ∧
    (parse_srt_content scenarioE =
      [⟨1, 1000, 4000, "First"⟩, ⟨3, 7000, 8000, "Third"⟩]) ∧
    (∀ attempts : List (Option String),
      (∃ e, parse_srt_file attempts = .error e) ↔ ∀ a ∈ attempts, a = none) := by
  refine ⟨mem_parse_srt_content, ?_, by decide, ?_⟩
  · intro content hall
    show List.insertionSort (fun a b : Subtitle => a.start_ms ≤ b.start_ms)
      ((splitBlocks
        (pyStrip (content.data.dropWhile (fun ch => ch = '﻿')))).filterMap
        parseBlock) = []
    rw [List.filterMap_eq_nil_iff.mpr hall]
    rfl
  · intro attempts
    unfold parse_srt_file
    cases h : attempts.reduceOption with
    | nil =>
      constructor
      · intro _
        exact (reduceOption_nil_iff attempts).mp h
      · intro _
        exact ⟨_, rfl⟩
    | cons x xs =>
      constructor
      · intro ⟨e, he⟩
        cases he
      · intro hall
        have h2 := (reduceOption_nil_iff attempts).mpr hall
        rw [h2] at h
        cases h

/-- C8: markup tags are stripped at parse time regardless of tag name —
any `<tag>body</tag>` pair leaves exactly the body, a lone `<tag>` (hence
also a self-closing `<tag/>`) is removed entirely, and the Scenario A
block with `<i>italic stripped</i>` parses to a cue whose text is exactly
`"italic stripped"`. -/
theorem C8_tags_stripped :
    (∀ tag body : List Char, (∀ c ∈ tag, c ≠ '>') → tag ≠ [] →
      (∀ c ∈ body, c ≠ '<') →
      removeTags
        ('<' :: (tag ++ '>' :: (body ++ '<' :: ('/' :: tag ++ ['>'])))) =
        body) ∧
    (∀ tag : List Char, (∀ c ∈ tag, c ≠ '>') → tag ≠ [] →
      removeTags ('<' :: (tag ++ ['>'])) = []) ∧
    (parseBlock ("3\n00:00:10,000 --> 00:00:12,500\n<i>italic stripped</i>".data) =
      some ⟨3, 10000, 12500, "italic stripped"⟩) :=
  ⟨removeTags_tag_pair, removeTags_one, by decide⟩

/-- Witness for C8: the `<i>` pair around `"x"` strips to `"x"`, and a
self-closing `<br/>` tag strips to nothing. -/
theorem C8_witness :
    removeTags ('<' :: (['i'] ++ '>' :: (['x'] ++ '<' :: ('/' :: ['i'] ++ ['>'])))) =
      ['x'] ∧
    removeTags ('<' :: (['b', 'r', '/'] ++ ['>'])) = [] :=
  ⟨C8_tags_stripped.1 ['i'] ['x'] (by decide) (by decide) (by decide),
   C8_tags_stripped.2.1 ['b', 'r', '/'] (by decide) (by decide)⟩

/-- Witness for C7: the empty source parses to no cues (via the
all-blocks-malformed clause), and four failed decode attempts are exactly
a hard parse error. -/
theorem C7_witness :
    parse_srt_content ("") = [] ∧
    (∃ e, parse_srt_file [none, none, none, none] = .error e) :=
  ⟨C7_malformed_skipped.2.1 ("") (by decide),
   (C7_malformed_skipped.2.2.2 [none, none, none, none]).mpr (by decide)⟩
